import Mathlib

/-!
Verification development for the ExplicitDeformations implicit-integration
engine.  The driver shell (`Application.cpp`), the view manager header and the
`Vertex` particle struct are present in the repository; the simulation core
(particle system, force models, conjugate-gradient solver, normal calculator)
is reconstructed here from the documented design, using exact rational
arithmetic in place of machine floats and an abstract square-root routine.
-/

namespace ExplicitDeformations

/-- A 3-component spatial vector (the mathematical vectors the force model,
assembler and solver operate on). -/
structure V3 where
  x : ℚ
  y : ℚ
  z : ℚ
deriving DecidableEq

/-- A 4-component homogeneous vector, mirroring `float position[DIMENSION + 1]`
and `float velocity[DIMENSION + 1]` of the `Vertex` struct. -/
structure V4 where
  x : ℚ
  y : ℚ
  z : ℚ
  w : ℚ
deriving DecidableEq

def v3zero : V3 := ⟨0, 0, 0⟩

def add3 (a b : V3) : V3 := ⟨a.x + b.x, a.y + b.y, a.z + b.z⟩

def sub3 (a b : V3) : V3 := ⟨a.x - b.x, a.y - b.y, a.z - b.z⟩

def neg3 (a : V3) : V3 := ⟨-a.x, -a.y, -a.z⟩

def smul3 (c : ℚ) (a : V3) : V3 := ⟨c * a.x, c * a.y, c * a.z⟩

def dot3 (a b : V3) : ℚ := a.x * b.x + a.y * b.y + a.z * b.z

def cross3 (a b : V3) : V3 :=
  ⟨a.y * b.z - a.z * b.y, a.z * b.x - a.x * b.z, a.x * b.y - a.y * b.x⟩

/-- Squared Euclidean length of a spatial vector. -/
def normSq (a : V3) : ℚ := dot3 a a

/-- The spatial (first three) components of a homogeneous vector. -/
def spatial (v : V4) : V3 := ⟨v.x, v.y, v.z⟩

/-- Overwrite the spatial components of a homogeneous vector, leaving the
homogeneous 4th component untouched (the engine only ever writes components
0..2 of position/velocity). -/
def setSpatial (v : V4) (u : V3) : V4 := ⟨u.x, u.y, u.z, v.w⟩

/-- One particle, mirroring struct `Vertex` of the repository: a homogeneous
position, a homogeneous velocity, and a triangle-incidence count. -/
structure Particle where
  position : V4
  velocity : V4
  triangleCount : ℤ
deriving DecidableEq

/-- The fallback particle used for out-of-range list accesses in this
development; its homogeneous components are 1 and its spatial data zero. -/
def defaultParticle : Particle := ⟨⟨0, 0, 0, 1⟩, ⟨0, 0, 0, 1⟩, 0⟩

/-- The `Vertex` default constructor from `src/unnamed/part_000`: it assigns
`position[DIMENSION] = 1` and `velocity[DIMENSION] = 1` and nothing else, so
the three spatial components of each array and `triangleCount` retain whatever
bytes the underlying memory held.  That indeterminate pre-existing memory is
modelled by the arguments `junkPos`, `junkVel`, `junkCount`. -/
def mkVertex (junkPos junkVel : V4) (junkCount : ℤ) : Particle :=
  { position := ⟨junkPos.x, junkPos.y, junkPos.z, 1⟩
    velocity := ⟨junkVel.x, junkVel.y, junkVel.z, 1⟩
    triangleCount := junkCount }

/-- A structural connection between two particles: endpoint indices and a rest
length. -/
structure Edge where
  i : ℕ
  j : ℕ
  restLen : ℚ
deriving DecidableEq

/-- A surface triangle (three particle indices), used only for normals. -/
structure Tri where
  a : ℕ
  b : ℕ
  c : ℕ
deriving DecidableEq

/-- A volumetric element (tetrahedron): four particle indices, as read from
the `.ele` file by the external loader. -/
structure Tetra where
  a : ℕ
  b : ℕ
  c : ℕ
  d : ℕ
deriving DecidableEq

/-- Modelled from the spec: the simulation parameters of §3 (spring constant
`ks` as in class ParticleSystem, damping constant, gravitational acceleration,
rest-length scale) together with the solver tolerance and iteration cap of
§4.3.  `sqrtFn` abstracts the floating-point square-root routine the numeric
code uses; every theorem below holds for an arbitrary such routine. -/
structure Params where
  ks : ℚ
  kd : ℚ
  grav : ℚ
  restScale : ℚ
  tol : ℚ
  maxIter : ℕ
  sqrtFn : ℚ → ℚ

/-- Modelled from the spec: the immutable per-run data of the engine —
parameters, Pin Set snapshot, derived edges, surface triangles, and the
initial particle snapshot used by the Reset transition. -/
structure System where
  params : Params
  pins : List ℕ
  edges : List Edge
  tris : List Tri
  initState : List Particle

/-- The mutable simulation state: the particle list plus the per-vertex
normals the Normal Calculator maintains for the renderer. -/
structure SimState where
  parts : List Particle
  normals : List V3
deriving DecidableEq

/-- Apply `f` to the element at index `i`, leaving the list unchanged when the
index is out of range.  (Local indexed-update helper.) -/
def modifyAt (f : α → α) : List α → ℕ → List α
  | [], _ => []
  | a :: as, 0 => f a :: as
  | a :: as, n + 1 => a :: modifyAt f as n

/-- Indexed map with an explicit starting index (local helper mirroring the
per-particle loops of the engine). -/
def mapIdxF (f : ℕ → α → β) : ℕ → List α → List β
  | _, [] => []
  | k, a :: as => f k a :: mapIdxF f (k + 1) as

/-- Modelled from the spec: the near-zero-length clamp threshold of §4.1
(`NumericalDegeneracy` is recovered locally by skipping the contribution). -/
def EPSILON : ℚ := 1 / 1000000

/-- Modelled from the spec (§4.1, Linear-Spring-Damper): the spring-damper
force the connection `e` exerts on its first endpoint,
`-k (len - L0) dir - kd ((vi - vj) . dir) dir`, with the contribution skipped
when the current length is below `EPSILON`. -/
def edgeForce (sys : System) (ps : List Particle) (e : Edge) : V3 :=
  let pi := ps.getD e.i defaultParticle
  let pj := ps.getD e.j defaultParticle
  let d := sub3 (spatial pi.position) (spatial pj.position)
  let len := sys.params.sqrtFn (normSq d)
  if len < EPSILON then v3zero
  else
    let dir := smul3 (1 / len) d
    let rel := sub3 (spatial pi.velocity) (spatial pj.velocity)
    add3 (smul3 (-(sys.params.ks) * (len - sys.params.restScale * e.restLen)) dir)
      (smul3 (-(sys.params.kd) * dot3 rel dir) dir)

/-- Modelled from the spec (§4.1): uniform gravitational force, mass 1, applied
downward to every non-pinned particle. -/
def gravityForce (sys : System) (ps : List Particle) : List V3 :=
  mapIdxF (fun i _ => if i ∈ sys.pins then v3zero else ⟨0, -(sys.params.grav), 0⟩) 0 ps

/-- Add a contribution vector into slot `i` of a force/operator accumulator. -/
def bumpV3 (l : List V3) (i : ℕ) (v : V3) : List V3 :=
  modifyAt (fun u => add3 u v) l i

/-- Modelled from the spec: the Force Model's per-particle force vector —
gravity plus the spring-damper contribution of every connection, applied with
opposite signs to the two endpoints. -/
def totalForce (sys : System) (ps : List Particle) : List V3 :=
  sys.edges.foldl
    (fun acc e =>
      let f := edgeForce sys ps e
      bumpV3 (bumpV3 acc e.i f) e.j (neg3 f))
    (gravityForce sys ps)

/-- Modelled from the spec (§4.1): the position-Jacobian block of one spring
applied to the endpoint difference `u`: the along-axis stiffness term plus the
orthogonal geometric-stiffening term from the changing direction vector. -/
def edgeJxContrib (sys : System) (ps : List Particle) (e : Edge) (u : V3) : V3 :=
  let pi := ps.getD e.i defaultParticle
  let pj := ps.getD e.j defaultParticle
  let d := sub3 (spatial pi.position) (spatial pj.position)
  let len := sys.params.sqrtFn (normSq d)
  if len < EPSILON then v3zero
  else
    let dir := smul3 (1 / len) d
    let along := dot3 u dir
    add3 (smul3 (-(sys.params.ks) * along) dir)
      (smul3 (-(sys.params.ks) * (1 - sys.params.restScale * e.restLen / len))
        (sub3 u (smul3 along dir)))

/-- Modelled from the spec (§4.1): the velocity-Jacobian block of one spring
(the damping term's derivative, constant for fixed direction). -/
def edgeJvContrib (sys : System) (ps : List Particle) (e : Edge) (u : V3) : V3 :=
  let pi := ps.getD e.i defaultParticle
  let pj := ps.getD e.j defaultParticle
  let d := sub3 (spatial pi.position) (spatial pj.position)
  let len := sys.params.sqrtFn (normSq d)
  if len < EPSILON then v3zero
  else
    let dir := smul3 (1 / len) d
    smul3 (-(sys.params.kd) * dot3 u dir) dir

/-- Modelled from the spec (§4.1/§4.2): matrix-free application of the force
position-Jacobian to a perturbation vector. -/
def applyKx (sys : System) (ps : List Particle) (w : List V3) : List V3 :=
  sys.edges.foldl
    (fun acc e =>
      let u := sub3 (w.getD e.i v3zero) (w.getD e.j v3zero)
      let c := edgeJxContrib sys ps e u
      bumpV3 (bumpV3 acc e.i c) e.j (neg3 c))
    (List.replicate w.length v3zero)

/-- Modelled from the spec (§4.1/§4.2): matrix-free application of the force
velocity-Jacobian to a perturbation vector. -/
def applyKv (sys : System) (ps : List Particle) (w : List V3) : List V3 :=
  sys.edges.foldl
    (fun acc e =>
      let u := sub3 (w.getD e.i v3zero) (w.getD e.j v3zero)
      let c := edgeJvContrib sys ps e u
      bumpV3 (bumpV3 acc e.i c) e.j (neg3 c))
    (List.replicate w.length v3zero)

/-- Zero out the pinned components of a state-sized vector (removal of the
pinned columns' contribution, §4.2). -/
def zeroPinned (sys : System) (w : List V3) : List V3 :=
  mapIdxF (fun i v => if i ∈ sys.pins then v3zero else v) 0 w

def addL (v w : List V3) : List V3 := List.zipWith add3 v w

def subL (v w : List V3) : List V3 := List.zipWith sub3 v w

def smulL (c : ℚ) (v : List V3) : List V3 := v.map (smul3 c)

def dotL (v w : List V3) : ℚ := (List.zipWith dot3 v w).foldl (· + ·) 0

/-- Modelled from the spec (§4.2): the matrix-free implicit operator
`A(v) = M v - h (dF/dv) v - h^2 (dF/dx) v` with identity mass, pinned rows
forced to identity and pinned columns zeroed. -/
def applyA (sys : System) (ps : List Particle) (h : ℚ) (w : List V3) : List V3 :=
  let wf := zeroPinned sys w
  let base := subL (subL wf (smulL h (applyKv sys ps wf))) (smulL (h * h) (applyKx sys ps wf))
  mapIdxF (fun i v => if i ∈ sys.pins then w.getD i v3zero else v) 0 base

/-- Modelled from the spec (§4.2): the right-hand side
`b = h (F(x0, v0) + h (dF/dx) v0)` with pinned entries removed. -/
def rhs (sys : System) (ps : List Particle) (h : ℚ) : List V3 :=
  let f := totalForce sys ps
  let v0 := zeroPinned sys (ps.map (fun p => spatial p.velocity))
  let kxv := applyKx sys ps v0
  mapIdxF
    (fun i _ =>
      if i ∈ sys.pins then v3zero
      else smul3 h (add3 (f.getD i v3zero) (smul3 h (kxv.getD i v3zero))))
    0 ps

/-- Modelled from the spec (§4.3): the conjugate-gradient iteration.  The
iteration stops as soon as the squared residual norm is within the squared
tolerance; when the fuel (iteration cap) runs out, the current iterate — the
best solution found so far — is returned rather than any failure value. -/
def cgLoop (a : List V3 → List V3) (tol2 : ℚ) : ℕ → List V3 → List V3 → List V3 → List V3
  | 0, xv, _, _ => xv
  | fuel + 1, xv, r, p =>
    if dotL r r ≤ tol2 then xv
    else
      let ap := a p
      let pap := dotL p ap
      let alpha := dotL r r / pap
      let xv2 := addL xv (smulL alpha p)
      let r2 := subL r (smulL alpha ap)
      let beta := dotL r2 r2 / dotL r r
      let p2 := addL r2 (smulL beta p)
      cgLoop a tol2 fuel xv2 r2 p2

/-- Modelled from the spec (§4.3): solve `A x = b` by conjugate gradients from
the zero initial guess, with tolerance `tol` and iteration cap `maxIter`. -/
def cgSolve (a : List V3 → List V3) (b : List V3) (tol : ℚ) (maxIter : ℕ) : List V3 :=
  cgLoop a (tol * tol) maxIter (List.replicate b.length v3zero) b b

/-- Modelled from the spec (§4.4): the state update of one implicit sub-step —
for every particle not in the Pin Set, `v <- v + dv` then `x <- x + h v`;
particles in the Pin Set are left untouched. -/
def applyUpdate (sys : System) (st : SimState) (h : ℚ) (dv : List V3) : SimState :=
  { st with
    parts :=
      mapIdxF
        (fun i p =>
          if i ∈ sys.pins then p
          else
            let v2 := add3 (spatial p.velocity) (dv.getD i v3zero)
            { p with
              velocity := setSpatial p.velocity v2
              position := setSpatial p.position (add3 (spatial p.position) (smul3 h v2)) })
        0 st.parts }

/-- Modelled from the spec (§4.4): one implicit sub-step, the body of the
engine's `doUpdate(timeElapsed)` (called `advance` in the design document):
evaluate the Force Model, assemble operator and right-hand side, solve for the
velocity delta, and apply the state update. -/
def doUpdate (sys : System) (st : SimState) (h : ℚ) : SimState :=
  applyUpdate sys st h
    (cgSolve (applyA sys st.parts h) (rhs sys st.parts h) sys.params.tol sys.params.maxIter)

/-- `n` consecutive sub-steps. -/
def stepN (sys : System) (h : ℚ) : ℕ → SimState → SimState
  | 0, st => st
  | n + 1, st => stepN sys h n (doUpdate sys st h)

/-- Modelled from the spec (§4.5): the geometric normal of one surface
triangle, the cross product of two edge vectors of its current vertex
positions. -/
def triNormal (ps : List Particle) (t : Tri) : V3 :=
  let pa := spatial ((ps.getD t.a defaultParticle).position)
  let pb := spatial ((ps.getD t.b defaultParticle).position)
  let pc := spatial ((ps.getD t.c defaultParticle).position)
  cross3 (sub3 pb pa) (sub3 pc pa)

/-- Add one face normal into a vertex's accumulator, incrementing its count. -/
def bumpNC (acc : List (V3 × ℤ)) (i : ℕ) (nv : V3) : List (V3 × ℤ) :=
  modifyAt (fun vc => (add3 vc.1 nv, vc.2 + 1)) acc i

/-- Modelled from the spec (§4.5): starting from freshly reset accumulators,
add every surface triangle's geometric normal to each of its three vertices'
accumulators, incrementing their triangle counts. -/
def accumNormals (sys : System) (ps : List Particle) : List (V3 × ℤ) :=
  sys.tris.foldl
    (fun acc t =>
      let nv := triNormal ps t
      bumpNC (bumpNC (bumpNC acc t.a nv) t.b nv) t.c nv)
    (List.replicate ps.length (v3zero, 0))

/-- Write the accumulated triangle counts back into the particle list. -/
def updParts (ps : List Particle) (acc : List (V3 × ℤ)) : List Particle :=
  List.zipWith (fun p vc => { p with triangleCount := vc.2 }) ps acc

/-- Final per-vertex normals: each accumulated normal divided by its triangle
count, falling back to zero when the count is zero (no division by zero). -/
def normalsOf (acc : List (V3 × ℤ)) : List V3 :=
  acc.map (fun vc => if vc.2 = 0 then v3zero else smul3 (1 / (vc.2 : ℚ)) vc.1)

/-- Modelled from the spec (§4.5): the Normal Calculator, the engine's
`calculateNormals` (called `refreshNormals` in the design document): reset all
accumulators, re-accumulate face normals, and set each vertex normal to the
mean of its incident face normals (zero when no triangle contains it). -/
def calculateNormals (sys : System) (st : SimState) : SimState :=
  { parts := updParts st.parts (accumNormals sys st.parts)
    normals := normalsOf (accumNormals sys st.parts) }

/-- Modelled from the spec (§4.4): the Reset transition restores the initial
particle snapshot recorded at construction. -/
def resetState (sys : System) (st : SimState) : SimState :=
  { st with parts := sys.initState }

/-- Modelled from the spec (§7): the construction-time error taxonomy. -/
inductive TopologyError where
  | zeroCounts : TopologyError
  | indexOutOfRange : TopologyError
deriving DecidableEq

/-- Does the tetrahedron reference a particle index outside `0..n-1`? -/
def tetraIndexBad (n : ℕ) (t : Tetra) : Bool :=
  decide (n ≤ t.a) || decide (n ≤ t.b) || decide (n ≤ t.c) || decide (n ≤ t.d)

/-- The index pair of an edge, smaller index first (for de-duplication). -/
def normPair (i j : ℕ) : ℕ × ℕ := if i ≤ j then (i, j) else (j, i)

/-- The six edges a tetrahedron contributes, as normalised index pairs. -/
def tetraPairs (t : Tetra) : List (ℕ × ℕ) :=
  [normPair t.a t.b, normPair t.a t.c, normPair t.a t.d,
   normPair t.b t.c, normPair t.b t.d, normPair t.c t.d]

/-- The four faces of a tetrahedron, used as surface triangles for normals. -/
def tetraFaces (t : Tetra) : List Tri :=
  [⟨t.a, t.b, t.c⟩, ⟨t.a, t.b, t.d⟩, ⟨t.a, t.c, t.d⟩, ⟨t.b, t.c, t.d⟩]

/-- Rest length of the connection between particles `i` and `j`: their initial
distance, computed through the numeric square-root routine. -/
def restLenOf (prm : Params) (ps : List Particle) (ij : ℕ × ℕ) : Edge :=
  let d := sub3 (spatial ((ps.getD ij.1 defaultParticle).position))
    (spatial ((ps.getD ij.2 defaultParticle).position))
  ⟨ij.1, ij.2, prm.sqrtFn (normSq d)⟩

/-- Modelled from the spec (§6, §3): construction of the simulation core from
the loader's particle and tetrahedron arrays.  It fails with a
`TopologyError` when a count is zero or an element references an out-of-range
particle index; otherwise it derives the de-duplicated edge list and the
surface triangles and returns the engine and its initial state. -/
def construct (ps : List Particle) (tets : List Tetra) (prm : Params) :
    Except TopologyError (System × SimState) :=
  if ps.length = 0 ∨ tets.length = 0 then Except.error TopologyError.zeroCounts
  else if tets.any (fun t => tetraIndexBad ps.length t) then
    Except.error TopologyError.indexOutOfRange
  else
    let pairs := (tets.foldl (fun acc t => acc ++ tetraPairs t) []).dedup
    Except.ok
      ({ params := prm
         pins := []
         edges := pairs.map (restLenOf prm ps)
         tris := tets.foldl (fun acc t => acc ++ tetraFaces t) []
         initState := ps },
       { parts := ps, normals := List.replicate ps.length v3zero })

/-- From `src/ImplicitMethods/Application.cpp` (function `render`): the
per-sub-step time step selected by the driver for each deformation method
(1 = Stanford, 2 = Georgia Institute, 3 = Nonlinear paper method). -/
def timeStepFor (whichMethod : ℤ) : ℚ :=
  if whichMethod = 1 then 5 / 1000
  else if whichMethod = 2 then 5 / 1000
  else if whichMethod = 3 then 5 / 10000
  else 5 / 1000

/-- Observable engine invocations of one frame of the driver's render loop. -/
inductive FrameEvent where
  | update : FrameEvent
  | normals : FrameEvent
deriving DecidableEq

/-- The driver's sub-step loop (`for (int i = 0; i < 10; i++)` in `render`),
instrumented with one `update` event per `doUpdate` call. -/
def subStepLoop (sys : System) (h : ℚ) : ℕ → SimState → SimState × List FrameEvent
  | 0, st => (st, [])
  | n + 1, st =>
    let r := subStepLoop sys h n (doUpdate sys st h)
    (r.1, FrameEvent.update :: r.2)

/-- From `src/ImplicitMethods/Application.cpp` (function `render`): select the
per-method time step, run ten sub-steps, then recompute normals once before
the renderer reads the state. -/
def renderFrame (sys : System) (whichMethod : ℤ) (st : SimState) :
    SimState × List FrameEvent :=
  let h := timeStepFor whichMethod
  let r := subStepLoop sys h 10 st
  (calculateNormals sys r.1, r.2 ++ [FrameEvent.normals])

/-- Modelled from the spec (§4.4): one sub-step as a relation between the
pre-state and post-state, with the intermediate right-hand side and solved
velocity delta made explicit. -/
inductive SubStep (sys : System) (h : ℚ) : SimState → SimState → Prop where
  | mk : ∀ (st : SimState) (b dv : List V3),
      b = rhs sys st.parts h →
      dv = cgSolve (applyA sys st.parts h) b sys.params.tol sys.params.maxIter →
      SubStep sys h st (applyUpdate sys st h dv)

/-- Every particle of the list has both homogeneous 4th components equal 1. -/
def homogOK (l : List Particle) : Prop :=
  ∀ i, i < l.length →
    (l.getD i defaultParticle).position.w = 1 ∧ (l.getD i defaultParticle).velocity.w = 1

/-! ### Component algebra lemmas -/

@[simp]
lemma add3_zero_right (v : V3) : add3 v v3zero = v := by
  cases v; simp [add3, v3zero]

@[simp]
lemma add3_zero_left (v : V3) : add3 v3zero v = v := by
  cases v; simp [add3, v3zero]

@[simp]
lemma smul3_zero_coeff (v : V3) : smul3 0 v = v3zero := by
  simp [smul3, v3zero]

@[simp]
lemma smul3_zero_vec (c : ℚ) : smul3 c v3zero = v3zero := by
  simp [smul3, v3zero]

@[simp]
lemma neg3_zero : neg3 v3zero = v3zero := by
  simp [neg3, v3zero]

@[simp]
lemma dot3_zero_left (v : V3) : dot3 v3zero v = 0 := by
  simp [dot3, v3zero]

lemma setSpatial_spatial (v : V4) : setSpatial v (spatial v) = v := rfl

@[simp]
lemma setSpatial_w (v : V4) (u : V3) : (setSpatial v u).w = v.w := rfl

/-! ### List helper lemmas -/

lemma getD_nil (i : ℕ) (d : α) : List.getD ([] : List α) i d = d := by
  cases i <;> rfl

lemma getD_oob (l : List α) (i : ℕ) (d : α) (h : l.length ≤ i) : l.getD i d = d := by
  induction l generalizing i with
  | nil => exact getD_nil i d
  | cons a as ih =>
    cases i with
    | zero => simp at h
    | succ n => exact ih n (by simpa using h)

lemma length_mapIdxF (f : ℕ → α → β) (k : ℕ) (l : List α) :
    (mapIdxF f k l).length = l.length := by
  induction l generalizing k with
  | nil => rfl
  | cons a as ih => simp [mapIdxF, ih]

lemma getD_mapIdxF (f : ℕ → α → β) (k : ℕ) (l : List α) (i : ℕ) (d : β) (d2 : α)
    (h : i < l.length) :
    (mapIdxF f k l).getD i d = f (k + i) (l.getD i d2) := by
  induction l generalizing k i with
  | nil => simp at h
  | cons a as ih =>
    cases i with
    | zero => rfl
    | succ n =>
      have := ih (k + 1) n (by simpa using h)
      simpa [mapIdxF, List.getD, Nat.add_assoc, Nat.add_comm 1 n] using this

lemma mapIdxF_const (f : ℕ → α → β) (c : β) (k : ℕ) (l : List α)
    (hf : ∀ i a, f i a = c) :
    mapIdxF f k l = List.replicate l.length c := by
  induction l generalizing k with
  | nil => rfl
  | cons a as ih => simp [mapIdxF, hf, List.replicate, ih]

lemma mapIdxF_eq_map (f : ℕ → α → β) (g : α → β) (k : ℕ) (l : List α)
    (hf : ∀ i a, f i a = g a) :
    mapIdxF f k l = l.map g := by
  induction l generalizing k with
  | nil => rfl
  | cons a as ih => simp [mapIdxF, hf, ih]

lemma mapIdxF_eq_self (f : ℕ → α → α) (d : α) (k : ℕ) (l : List α)
    (hf : ∀ i, i < l.length → f (k + i) (l.getD i d) = l.getD i d) :
    mapIdxF f k l = l := by
  induction l generalizing k with
  | nil => rfl
  | cons a as ih =>
    have h0 : f k a = a := by simpa using hf 0 (by simp)
    have ht : mapIdxF f (k + 1) as = as := by
      refine ih (k + 1) ?_
      intro i hi
      have := hf (i + 1) (by simpa using Nat.succ_lt_succ hi)
      simpa [List.getD, Nat.add_assoc, Nat.add_comm 1 i] using this
    simp [mapIdxF, h0, ht]

lemma length_modifyAt (f : α → α) (l : List α) (i : ℕ) :
    (modifyAt f l i).length = l.length := by
  induction l generalizing i with
  | nil => rfl
  | cons a as ih =>
    cases i with
    | zero => rfl
    | succ n => simp [modifyAt, ih]

lemma modifyAt_of_id (f : α → α) (l : List α) (i : ℕ) (hf : ∀ a, f a = a) :
    modifyAt f l i = l := by
  induction l generalizing i with
  | nil => rfl
  | cons a as ih =>
    cases i with
    | zero => simp [modifyAt, hf]
    | succ n => simp [modifyAt, ih]

lemma getD_replicate_self (n : ℕ) (a : α) (i : ℕ) :
    (List.replicate n a).getD i a = a := by
  induction n generalizing i with
  | zero => exact getD_nil i a
  | succ m ih =>
    cases i with
    | zero => rfl
    | succ k =>
      rw [List.replicate]
      exact ih k

lemma zipWith_replicate (f : α → β → γ) (n : ℕ) (a : α) (b : β) :
    List.zipWith f (List.replicate n a) (List.replicate n b) = List.replicate n (f a b) := by
  induction n with
  | zero => rfl
  | succ m ih => simp [List.replicate, ih]

lemma foldl_add_replicate_zero (n : ℕ) (c : ℚ) :
    List.foldl (· + ·) c (List.replicate n (0 : ℚ)) = c := by
  induction n generalizing c with
  | zero => rfl
  | succ m ih => simpa [List.replicate] using ih c

lemma foldl_fix (g : β → α → β) (a : β) (es : List α)
    (hg : ∀ acc e, e ∈ es → g acc e = acc) :
    es.foldl g a = a := by
  induction es generalizing a with
  | nil => rfl
  | cons e es ih =>
    rw [List.foldl_cons, hg a e (by simp)]
    exact ih a (fun acc x hx => hg acc x (by simp [hx]))

lemma foldl_congr_mem (g1 g2 : β → α → β) (a : β) (es : List α)
    (hg : ∀ acc e, e ∈ es → g1 acc e = g2 acc e) :
    es.foldl g1 a = es.foldl g2 a := by
  induction es generalizing a with
  | nil => rfl
  | cons e es ih =>
    rw [List.foldl_cons, List.foldl_cons, hg a e (by simp)]
    exact ih (g2 a e) (fun acc x hx => hg acc x (by simp [hx]))

lemma foldl_length_inv (g : List β → α → List β) (a : List β) (es : List α)
    (hg : ∀ acc e, (g acc e).length = acc.length) :
    (es.foldl g a).length = a.length := by
  induction es generalizing a with
  | nil => rfl
  | cons e es ih => simpa [List.foldl_cons, hg] using ih (g a e)

lemma getD_zipWith (f : α → β → γ) (l1 : List α) (l2 : List β) (i : ℕ)
    (d1 : α) (d2 : β) (d3 : γ) (hlen : l2.length = l1.length) (hi : i < l1.length) :
    (List.zipWith f l1 l2).getD i d3 = f (l1.getD i d1) (l2.getD i d2) := by
  induction l1 generalizing l2 i with
  | nil => simp at hi
  | cons a as ih =>
    cases l2 with
    | nil => simp at hlen
    | cons b bs =>
      cases i with
      | zero => rfl
      | succ n =>
        exact ih bs n (by simpa using hlen) (by simpa using hi)

lemma map_mapIdxF (g : β → γ) (f : ℕ → α → β) (k : ℕ) (l : List α) :
    (mapIdxF f k l).map g = mapIdxF (fun i a => g (f i a)) k l := by
  induction l generalizing k with
  | nil => rfl
  | cons a as ih => simp [mapIdxF, ih]

/-! ### Engine behaviour with all force parameters at zero -/

lemma edgeForce_zero (sys : System) (ps : List Particle) (e : Edge)
    (hks : sys.params.ks = 0) (hkd : sys.params.kd = 0) :
    edgeForce sys ps e = v3zero := by
  simp [edgeForce, hks, hkd]

lemma gravityForce_zero (sys : System) (ps : List Particle)
    (hg : sys.params.grav = 0) :
    gravityForce sys ps = List.replicate ps.length v3zero := by
  refine mapIdxF_const _ v3zero _ _ ?_
  intro i a
  rw [hg]
  split <;> simp [v3zero]

lemma bumpV3_zero (l : List V3) (i : ℕ) : bumpV3 l i v3zero = l :=
  modifyAt_of_id _ _ _ (fun a => add3_zero_right a)

lemma totalForce_zero (sys : System) (ps : List Particle)
    (hks : sys.params.ks = 0) (hkd : sys.params.kd = 0) (hg : sys.params.grav = 0) :
    totalForce sys ps = List.replicate ps.length v3zero := by
  unfold totalForce
  rw [gravityForce_zero sys ps hg]
  refine foldl_fix _ _ _ ?_
  intro acc e he
  simp [edgeForce_zero sys ps e hks hkd, bumpV3_zero]

lemma edgeJxContrib_zero (sys : System) (ps : List Particle) (e : Edge) (u : V3)
    (hks : sys.params.ks = 0) :
    edgeJxContrib sys ps e u = v3zero := by
  simp [edgeJxContrib, hks]

lemma edgeJvContrib_zero (sys : System) (ps : List Particle) (e : Edge) (u : V3)
    (hkd : sys.params.kd = 0) :
    edgeJvContrib sys ps e u = v3zero := by
  simp [edgeJvContrib, hkd]

lemma applyKx_zero (sys : System) (ps : List Particle) (w : List V3)
    (hks : sys.params.ks = 0) :
    applyKx sys ps w = List.replicate w.length v3zero := by
  unfold applyKx
  refine foldl_fix _ _ _ ?_
  intro acc e he
  simp [edgeJxContrib_zero sys ps e _ hks, bumpV3_zero]

lemma applyKv_zero (sys : System) (ps : List Particle) (w : List V3)
    (hkd : sys.params.kd = 0) :
    applyKv sys ps w = List.replicate w.length v3zero := by
  unfold applyKv
  refine foldl_fix _ _ _ ?_
  intro acc e he
  simp [edgeJvContrib_zero sys ps e _ hkd, bumpV3_zero]

lemma rhs_zero (sys : System) (ps : List Particle) (h : ℚ)
    (hks : sys.params.ks = 0) (hkd : sys.params.kd = 0) (hg : sys.params.grav = 0) :
    rhs sys ps h = List.replicate ps.length v3zero := by
  simp only [rhs]
  refine mapIdxF_const _ v3zero _ _ ?_
  intro i a
  rw [totalForce_zero sys ps hks hkd hg, applyKx_zero sys ps _ hks]
  split <;> simp [getD_replicate_self]

lemma dotL_zero (n : ℕ) :
    dotL (List.replicate n v3zero) (List.replicate n v3zero) = 0 := by
  unfold dotL
  rw [zipWith_replicate, dot3_zero_left]
  exact foldl_add_replicate_zero n 0

lemma cgSolve_zero_rhs (a : List V3 → List V3) (tol : ℚ) (it n : ℕ) :
    cgSolve a (List.replicate n v3zero) tol it = List.replicate n v3zero := by
  unfold cgSolve
  rw [List.length_replicate]
  cases it with
  | zero => rfl
  | succ m =>
    unfold cgLoop
    rw [if_pos]
    rw [dotL_zero]
    exact mul_self_nonneg tol

lemma doUpdate_zero_dv (sys : System) (st : SimState) (h : ℚ)
    (hks : sys.params.ks = 0) (hkd : sys.params.kd = 0) (hg : sys.params.grav = 0) :
    doUpdate sys st h = applyUpdate sys st h (List.replicate st.parts.length v3zero) := by
  unfold doUpdate
  rw [rhs_zero sys st.parts h hks hkd hg, cgSolve_zero_rhs]

lemma applyUpdate_zero_dv_velocity (sys : System) (st : SimState) (h : ℚ) (m : ℕ) :
    (applyUpdate sys st h (List.replicate m v3zero)).parts.map Particle.velocity =
      st.parts.map Particle.velocity := by
  simp only [applyUpdate]
  rw [map_mapIdxF]
  refine mapIdxF_eq_map _ Particle.velocity _ _ ?_
  intro i p
  split
  · rfl
  · simp [getD_replicate_self, setSpatial_spatial]

lemma doUpdate_velocity_zero_params (sys : System) (st : SimState) (h : ℚ)
    (hks : sys.params.ks = 0) (hkd : sys.params.kd = 0) (hg : sys.params.grav = 0) :
    (doUpdate sys st h).parts.map Particle.velocity = st.parts.map Particle.velocity := by
  rw [doUpdate_zero_dv sys st h hks hkd hg]
  exact applyUpdate_zero_dv_velocity sys st h _

lemma stepN_velocity_zero_params (sys : System) (h : ℚ) (n : ℕ) (st : SimState)
    (hks : sys.params.ks = 0) (hkd : sys.params.kd = 0) (hg : sys.params.grav = 0) :
    (stepN sys h n st).parts.map Particle.velocity = st.parts.map Particle.velocity := by
  induction n generalizing st with
  | zero => rfl
  | succ m ih =>
    show (stepN sys h m (doUpdate sys st h)).parts.map Particle.velocity = _
    rw [ih (doUpdate sys st h)]
    exact doUpdate_velocity_zero_params sys st h hks hkd hg

lemma doUpdate_fix_zero_params (sys : System) (st : SimState) (h : ℚ)
    (hks : sys.params.ks = 0) (hkd : sys.params.kd = 0) (hg : sys.params.grav = 0)
    (hv : ∀ i, i < st.parts.length → i ∉ sys.pins →
      spatial ((st.parts.getD i defaultParticle).velocity) = v3zero) :
    doUpdate sys st h = st := by
  rw [doUpdate_zero_dv sys st h hks hkd hg]
  have hparts :
      mapIdxF
        (fun i p =>
          if i ∈ sys.pins then p
          else
            let v2 := add3 (spatial p.velocity)
              ((List.replicate st.parts.length v3zero).getD i v3zero)
            { p with
              velocity := setSpatial p.velocity v2
              position := setSpatial p.position (add3 (spatial p.position) (smul3 h v2)) })
        0 st.parts = st.parts := by
    refine mapIdxF_eq_self _ defaultParticle _ _ ?_
    intro i hi
    rw [Nat.zero_add]
    by_cases hpin : i ∈ sys.pins
    · simp [hpin]
    · have hv3 := hv i hi hpin
      simp only [if_neg hpin, getD_replicate_self, add3_zero_right, hv3, smul3_zero_vec,
        setSpatial_spatial]
      rw [← hv3, setSpatial_spatial]
  show { st with parts := _ } = st
  rw [hparts]

lemma stepN_fix_zero_params (sys : System) (h : ℚ) (n : ℕ) (st : SimState)
    (hks : sys.params.ks = 0) (hkd : sys.params.kd = 0) (hg : sys.params.grav = 0)
    (hv : ∀ i, i < st.parts.length → i ∉ sys.pins →
      spatial ((st.parts.getD i defaultParticle).velocity) = v3zero) :
    stepN sys h n st = st := by
  induction n with
  | zero => rfl
  | succ m ih =>
    show stepN sys h m (doUpdate sys st h) = st
    rw [doUpdate_fix_zero_params sys st h hks hkd hg hv]
    exact ih

/-! ### Normal-calculator lemmas -/

lemma length_bumpNC (acc : List (V3 × ℤ)) (i : ℕ) (nv : V3) :
    (bumpNC acc i nv).length = acc.length :=
  length_modifyAt _ _ _

lemma length_accumNormals (sys : System) (ps : List Particle) :
    (accumNormals sys ps).length = ps.length := by
  unfold accumNormals
  rw [foldl_length_inv]
  · exact List.length_replicate _ _
  · intro acc t
    simp [length_bumpNC]

lemma length_updParts (ps : List Particle) (acc : List (V3 × ℤ))
    (hlen : acc.length = ps.length) :
    (updParts ps acc).length = ps.length := by
  simp [updParts, hlen]

lemma updParts_getD_position (ps : List Particle) (acc : List (V3 × ℤ)) (k : ℕ)
    (hlen : acc.length = ps.length) :
    ((updParts ps acc).getD k defaultParticle).position =
      (ps.getD k defaultParticle).position := by
  by_cases hk : k < ps.length
  · rw [updParts, getD_zipWith _ _ _ _ defaultParticle (v3zero, 0) _ hlen hk]
  · rw [getD_oob _ _ _ (by rw [length_updParts ps acc hlen]; omega),
      getD_oob _ _ _ (by omega)]

lemma updParts_getD_velocity (ps : List Particle) (acc : List (V3 × ℤ)) (k : ℕ)
    (hlen : acc.length = ps.length) :
    ((updParts ps acc).getD k defaultParticle).velocity =
      (ps.getD k defaultParticle).velocity := by
  by_cases hk : k < ps.length
  · rw [updParts, getD_zipWith _ _ _ _ defaultParticle (v3zero, 0) _ hlen hk]
  · rw [getD_oob _ _ _ (by rw [length_updParts ps acc hlen]; omega),
      getD_oob _ _ _ (by omega)]

lemma triNormal_congr (ps1 ps2 : List Particle) (t : Tri)
    (hpos : ∀ k, (ps2.getD k defaultParticle).position = (ps1.getD k defaultParticle).position) :
    triNormal ps2 t = triNormal ps1 t := by
  simp only [triNormal]
  rw [hpos t.a, hpos t.b, hpos t.c]

lemma accumNormals_congr (sys : System) (ps1 ps2 : List Particle)
    (hlen : ps2.length = ps1.length)
    (hpos : ∀ k, (ps2.getD k defaultParticle).position = (ps1.getD k defaultParticle).position) :
    accumNormals sys ps2 = accumNormals sys ps1 := by
  unfold accumNormals
  rw [hlen]
  refine foldl_congr_mem _ _ _ _ ?_
  intro acc t ht
  simp [triNormal_congr ps1 ps2 t hpos]

lemma updParts_idem (ps : List Particle) (acc : List (V3 × ℤ)) :
    updParts (updParts ps acc) acc = updParts ps acc := by
  unfold updParts
  induction ps generalizing acc with
  | nil => rfl
  | cons p ps ih =>
    cases acc with
    | nil => rfl
    | cons vc acc => simp [ih]

/-! ### Sub-step frame-effect lemmas -/

lemma doUpdate_parts_length (sys : System) (st : SimState) (h : ℚ) :
    (doUpdate sys st h).parts.length = st.parts.length := by
  unfold doUpdate applyUpdate
  exact length_mapIdxF _ _ _

lemma doUpdate_getD_pinned (sys : System) (st : SimState) (h : ℚ) (i : ℕ)
    (hpin : i ∈ sys.pins) :
    (doUpdate sys st h).parts.getD i defaultParticle = st.parts.getD i defaultParticle := by
  unfold doUpdate applyUpdate
  by_cases hi : i < st.parts.length
  · rw [getD_mapIdxF _ _ _ _ _ defaultParticle hi, Nat.zero_add, if_pos hpin]
  · rw [getD_oob _ _ _ (by rw [length_mapIdxF]; omega), getD_oob _ _ _ (by omega)]

lemma homogOK_doUpdate (sys : System) (st : SimState) (h : ℚ)
    (hok : homogOK st.parts) : homogOK (doUpdate sys st h).parts := by
  intro i hi
  rw [doUpdate_parts_length] at hi
  unfold doUpdate applyUpdate
  rw [getD_mapIdxF _ _ _ _ _ defaultParticle hi, Nat.zero_add]
  by_cases hpin : i ∈ sys.pins
  · rw [if_pos hpin]
    exact hok i hi
  · rw [if_neg hpin]
    exact ⟨(hok i hi).1, (hok i hi).2⟩

lemma homogOK_calculateNormals (sys : System) (st : SimState)
    (hok : homogOK st.parts) : homogOK (calculateNormals sys st).parts := by
  intro i hi
  have hlen : (accumNormals sys st.parts).length = st.parts.length :=
    length_accumNormals sys st.parts
  unfold calculateNormals
  rw [updParts_getD_position _ _ _ hlen, updParts_getD_velocity _ _ _ hlen]
  refine hok i ?_
  unfold calculateNormals at hi
  rw [length_updParts _ _ hlen] at hi
  exact hi

/-! ### Driver-loop lemmas -/

lemma subStepLoop_spec (sys : System) (h : ℚ) (n : ℕ) (st : SimState) :
    subStepLoop sys h n st = (stepN sys h n st, List.replicate n FrameEvent.update) := by
  induction n generalizing st with
  | zero => rfl
  | succ m ih => simp [subStepLoop, ih, stepN, List.replicate]

/-! ### Construction-validation lemmas -/

lemma any_tetraIndexBad_iff (n : ℕ) (tets : List Tetra) :
    tets.any (fun t => tetraIndexBad n t) = true ↔
      ∃ t ∈ tets, n ≤ t.a ∨ n ≤ t.b ∨ n ≤ t.c ∨ n ≤ t.d := by
  simp [List.any_eq_true, tetraIndexBad, Bool.or_eq_true, decide_eq_true_eq, or_assoc]

/-! ### Concrete configurations used to witness the theorems below -/

/-- A concrete stand-in for the numeric square-root routine. -/
def cSqrt : ℚ → ℚ := fun q => q

/-- Parameters with zero stiffness, damping and gravity. -/
def cParamsZero : Params :=
  { ks := 0, kd := 0, grav := 0, restScale := 1, tol := 0, maxIter := 20, sqrtFn := cSqrt }

/-- A particle at the origin moving with unit velocity along x. -/
def cMoving : Particle :=
  { position := ⟨0, 0, 0, 1⟩, velocity := ⟨1, 0, 0, 1⟩, triangleCount := 0 }

/-- A one-particle system with no connections and an empty Pin Set. -/
def cSysFree : System :=
  { params := cParamsZero, pins := [], edges := [], tris := [], initState := [cMoving] }

/-- The state holding the single moving particle. -/
def cStMoving : SimState := { parts := [cMoving], normals := [] }

/-- The same one-particle system with its only particle pinned. -/
def cSysPin : System :=
  { params := cParamsZero, pins := [0], edges := [], tris := [], initState := [cMoving] }

/-- A state holding a single resting particle. -/
def cStRest : SimState := { parts := [defaultParticle], normals := [] }

/-! ### The claims -/

/-- Claim C1: for every particle in the Pin Set, position and velocity are
unchanged by one `doUpdate` (`advance`) sub-step — the velocity and position
updates are applied only to particles outside the Pin Set. -/
theorem pin_set_unchanged_by_advance (sys : System) (st : SimState) (h : ℚ) (i : ℕ)
    (hpin : i ∈ sys.pins) :
    ((doUpdate sys st h).parts.getD i defaultParticle).position =
        (st.parts.getD i defaultParticle).position ∧
      ((doUpdate sys st h).parts.getD i defaultParticle).velocity =
        (st.parts.getD i defaultParticle).velocity := by
  rw [doUpdate_getD_pinned sys st h i hpin]
  exact ⟨rfl, rfl⟩

/-- Witness for C1 at a concrete pinned configuration. -/
theorem pin_set_unchanged_by_advance_witness :
    (0 ∈ cSysPin.pins) ∧
      (((doUpdate cSysPin cStMoving 1).parts.getD 0 defaultParticle).position =
          (cStMoving.parts.getD 0 defaultParticle).position ∧
        ((doUpdate cSysPin cStMoving 1).parts.getD 0 defaultParticle).velocity =
          (cStMoving.parts.getD 0 defaultParticle).velocity) :=
  ⟨by decide, pin_set_unchanged_by_advance cSysPin cStMoving 1 0 (by decide)⟩

/-- Counterexample to claim C2 as stated: with spring constant, damping
constant and gravity all zero, one `advance` sub-step still moves a particle
whose initial velocity is nonzero, because the integrator applies
`x <- x + h v` with the (unchanged) velocity. -/
theorem conservation_claim_counterexample :
    cSysFree.params.ks = 0 ∧ cSysFree.params.kd = 0 ∧ cSysFree.params.grav = 0 ∧
      stepN cSysFree 1 1 cStMoving ≠ cStMoving := by
  refine ⟨rfl, rfl, rfl, ?_⟩
  intro heq
  have hx : ((stepN cSysFree 1 1 cStMoving).parts.getD 0 defaultParticle).position.x = 1 := by
    show ((doUpdate cSysFree cStMoving 1).parts.getD 0 defaultParticle).position.x = 1
    rw [doUpdate_zero_dv cSysFree cStMoving 1 rfl rfl rfl]
    simp [applyUpdate, mapIdxF, cStMoving, cMoving, cSysFree, cParamsZero, spatial,
      setSpatial, add3, smul3, v3zero, List.getD]
  rw [heq] at hx
  simp [cStMoving, cMoving, List.getD] at hx

/-- Claim C2, amended: with zero stiffness, zero damping and zero gravity,
velocities are unchanged after any number of sub-steps; and if additionally
every non-pinned particle starts with zero spatial velocity, positions are
unchanged as well (the whole state is a fixed point). -/
theorem conservation_zero_params_amended (sys : System) (st : SimState) (h : ℚ) (n : ℕ)
    (hks : sys.params.ks = 0) (hkd : sys.params.kd = 0) (hg : sys.params.grav = 0) :
    (stepN sys h n st).parts.map Particle.velocity = st.parts.map Particle.velocity ∧
      ((∀ i, i < st.parts.length → i ∉ sys.pins →
          spatial ((st.parts.getD i defaultParticle).velocity) = v3zero) →
        stepN sys h n st = st) :=
  ⟨stepN_velocity_zero_params sys h n st hks hkd hg,
    fun hv => stepN_fix_zero_params sys h n st hks hkd hg hv⟩

/-- Witness for the amended C2 at a concrete resting configuration. -/
theorem conservation_zero_params_amended_witness :
    (stepN cSysFree 1 3 cStRest).parts.map Particle.velocity =
        cStRest.parts.map Particle.velocity ∧
      stepN cSysFree 1 3 cStRest = cStRest := by
  have h := conservation_zero_params_amended cSysFree cStRest 1 3 rfl rfl rfl
  refine ⟨h.1, h.2 ?_⟩
  intro i hi hp
  have h0 : i = 0 := Nat.lt_one_iff.mp hi
  subst h0
  rfl

/-- Claim C3: a sub-step is a total function — the conjugate-gradient solver
never signals failure; when its iteration cap is exhausted it returns the
current (best) iterate, and `doUpdate` always produces a full state of the
same size by applying the solver's output. -/
theorem advance_nonconvergence_graceful (sys : System) (st : SimState) (h : ℚ)
    (a : List V3 → List V3) (t : ℚ) (xv r p : List V3) :
    cgLoop a t 0 xv r p = xv ∧
      (doUpdate sys st h).parts.length = st.parts.length ∧
      doUpdate sys st h =
        applyUpdate sys st h
          (cgSolve (applyA sys st.parts h) (rhs sys st.parts h) sys.params.tol
            sys.params.maxIter) :=
  ⟨rfl, doUpdate_parts_length sys st h, rfl⟩

/-- Claim C4: the `Vertex` constructor sets both homogeneous 4th components to
1, and every engine operation — `doUpdate`, `calculateNormals`, reset —
preserves them. -/
theorem homogeneous_component_invariant (jp jv : V4) (jc : ℤ) (sys : System)
    (st : SimState) (h : ℚ) (hok : homogOK st.parts) (hinit : homogOK sys.initState) :
    (mkVertex jp jv jc).position.w = 1 ∧ (mkVertex jp jv jc).velocity.w = 1 ∧
      homogOK (doUpdate sys st h).parts ∧ homogOK (calculateNormals sys st).parts ∧
      homogOK (resetState sys st).parts :=
  ⟨rfl, rfl, homogOK_doUpdate sys st h hok, homogOK_calculateNormals sys st hok, hinit⟩

/-- Witness for C4 at a concrete configuration. -/
theorem homogeneous_component_invariant_witness :
    homogOK (doUpdate cSysFree cStMoving 1).parts ∧
      homogOK (calculateNormals cSysFree cStMoving).parts := by
  have hok : homogOK cStMoving.parts := by
    intro i hi
    have h0 : i = 0 := Nat.lt_one_iff.mp hi
    subst h0
    exact ⟨rfl, rfl⟩
  have h := homogeneous_component_invariant ⟨0, 0, 0, 0⟩ ⟨0, 0, 0, 0⟩ 0 cSysFree
    cStMoving 1 hok hok
  exact ⟨h.2.2.1, h.2.2.2.1⟩

/-- Claim C5: each iteration of the driver's render loop performs exactly ten
`doUpdate` sub-steps followed by exactly one `calculateNormals`, in that
order, before the renderer reads the resulting state. -/
theorem render_frame_schedule (sys : System) (m : ℤ) (st : SimState) :
    (renderFrame sys m st).2 =
        List.replicate 10 FrameEvent.update ++ [FrameEvent.normals] ∧
      (renderFrame sys m st).1 = calculateNormals sys (stepN sys (timeStepFor m) 10 st) := by
  constructor <;> simp [renderFrame, subStepLoop_spec]

/-- Claim C6: the driver selects time step 0.005 for the Stanford (1) and
Georgia Institute (2) methods and 0.0005 for the Nonlinear (3) method, the
latter strictly smaller than both of the former. -/
theorem per_method_time_step :
    timeStepFor 1 = 5 / 1000 ∧ timeStepFor 2 = 5 / 1000 ∧ timeStepFor 3 = 5 / 10000 ∧
      timeStepFor 3 < timeStepFor 1 ∧ timeStepFor 3 < timeStepFor 2 := by
  refine ⟨rfl, rfl, rfl, ?_, ?_⟩ <;> norm_num [timeStepFor]

/-- Claim C7: `calculateNormals` (`refreshNormals`) is idempotent — a second
call with no intervening sub-step reproduces the same normals (indeed the
same whole state), because each call resets all accumulators before
re-accumulating from the unchanged positions. -/
theorem calculateNormals_idempotent (sys : System) (st : SimState) :
    calculateNormals sys (calculateNormals sys st) = calculateNormals sys st := by
  have hlen : (accumNormals sys st.parts).length = st.parts.length :=
    length_accumNormals sys st.parts
  have hplen : (updParts st.parts (accumNormals sys st.parts)).length = st.parts.length :=
    length_updParts _ _ hlen
  have hpos : ∀ k,
      ((updParts st.parts (accumNormals sys st.parts)).getD k defaultParticle).position =
        (st.parts.getD k defaultParticle).position :=
    fun k => updParts_getD_position _ _ _ hlen
  have hacc : accumNormals sys (updParts st.parts (accumNormals sys st.parts)) =
      accumNormals sys st.parts :=
    accumNormals_congr sys st.parts _ hplen hpos
  simp only [calculateNormals]
  rw [hacc, updParts_idem]

/-- Claim C8: construction fails with a `TopologyError` exactly when the
particle count or element count is zero or some element's particle index is
out of range; in that case no engine is produced, so no sub-step can run. -/
theorem construct_topology_error_iff (ps : List Particle) (tets : List Tetra)
    (prm : Params) :
    ((∃ e, construct ps tets prm = Except.error e) ↔
        (ps.length = 0 ∨ tets.length = 0 ∨
          ∃ t ∈ tets, ps.length ≤ t.a ∨ ps.length ≤ t.b ∨ ps.length ≤ t.c ∨
            ps.length ≤ t.d)) ∧
      ∀ e sysSt, construct ps tets prm = Except.error e →
        construct ps tets prm ≠ Except.ok sysSt := by
  constructor
  · unfold construct
    by_cases h1 : ps.length = 0 ∨ tets.length = 0
    · rw [if_pos h1]
      constructor
      · intro _
        rcases h1 with h | h
        · exact Or.inl h
        · exact Or.inr (Or.inl h)
      · intro _
        exact ⟨TopologyError.zeroCounts, rfl⟩
    · rw [if_neg h1]
      by_cases h2 : tets.any (fun t => tetraIndexBad ps.length t) = true
      · rw [if_pos h2]
        constructor
        · intro _
          exact Or.inr (Or.inr ((any_tetraIndexBad_iff ps.length tets).mp h2))
        · intro _
          exact ⟨TopologyError.indexOutOfRange, rfl⟩
      · rw [if_neg h2]
        constructor
        · rintro ⟨e, he⟩
          exact Except.noConfusion he
        · rintro (h | h | h)
          · exact absurd (Or.inl h) h1
          · exact absurd (Or.inr h) h1
          · exact absurd ((any_tetraIndexBad_iff ps.length tets).mpr h) h2
  · intro e sysSt he hok
    rw [he] at hok
    exact Except.noConfusion hok

/-- Witness for C8: empty inputs are rejected. -/
theorem construct_topology_error_iff_witness :
    ∃ e, construct [] [] cParamsZero = Except.error e :=
  (construct_topology_error_iff [] [] cParamsZero).1.mpr (Or.inl rfl)

/-- Claim C9: the sub-step pipeline (assembly, conjugate-gradient solve, state
update) is deterministic — two runs from the same state with the same
parameters produce the same state. -/
theorem substep_deterministic (sys : System) (h : ℚ) (st s1 s2 : SimState)
    (h1 : SubStep sys h st s1) (h2 : SubStep sys h st s2) : s1 = s2 := by
  cases h1 with
  | mk b1 dv1 hb1 hdv1 =>
    cases h2 with
    | mk b2 dv2 hb2 hdv2 =>
      subst hdv1
      subst hdv2
      subst hb1
      subst hb2
      rfl

/-- Witness for C9 at a concrete configuration. -/
theorem substep_deterministic_witness :
    applyUpdate cSysFree cStMoving 1
        (cgSolve (applyA cSysFree cStMoving.parts 1) (rhs cSysFree cStMoving.parts 1)
          cSysFree.params.tol cSysFree.params.maxIter) =
      applyUpdate cSysFree cStMoving 1
        (cgSolve (applyA cSysFree cStMoving.parts 1) (rhs cSysFree cStMoving.parts 1)
          cSysFree.params.tol cSysFree.params.maxIter) :=
  substep_deterministic cSysFree 1 cStMoving _ _
    (SubStep.mk cStMoving _ _ rfl rfl) (SubStep.mk cStMoving _ _ rfl rfl)

/-- Claim C10: the `Vertex` default constructor initializes only the
homogeneous 4th components (to 1); the three spatial components of position
and velocity and the triangle count pass through whatever indeterminate
values the memory previously held. -/
theorem vertex_constructor_partial_init (jp jv : V4) (jc : ℤ) :
    (mkVertex jp jv jc).position.w = 1 ∧ (mkVertex jp jv jc).velocity.w = 1 ∧
      (mkVertex jp jv jc).position.x = jp.x ∧ (mkVertex jp jv jc).position.y = jp.y ∧
      (mkVertex jp jv jc).position.z = jp.z ∧ (mkVertex jp jv jc).velocity.x = jv.x ∧
      (mkVertex jp jv jc).velocity.y = jv.y ∧ (mkVertex jp jv jc).velocity.z = jv.z ∧
      (mkVertex jp jv jc).triangleCount = jc :=
  ⟨rfl, rfl, rfl, rfl, rfl, rfl, rfl, rfl, rfl⟩

end ExplicitDeformations
